import Mathlib

/-!
Verification development for the np-render request-governance core
(`src/server.js`): bounded-concurrency queue, sliding/fixed rate window,
retry with exponential backoff, spread-delay scheduler, chunked summary
pipeline, tolerant JSON extraction, quiz sanitization and the no-backend
flashcard fallback.  JavaScript strings are embedded as `List Char`,
JS numbers used as integers are embedded as `Int`/`Nat`, and fractional
arithmetic (`Math.floor((a/b)*c)`, `Math.random()*150`) as `ℚ`.
-/

/- ===================== BoundedQueue (`_queue` / `_active` / `_pump`) ==================== -/

/-- State of the bounded queue of `server.js` lines 15-25: `queued` is the
length of `_queue`; `dispatched` counts executions of `_active++` (line 20);
`completed` counts executions of `_active--` in the `finally` block
(line 23).  The JS variable `_active` is `dispatched - completed`. -/
structure PumpState where
  queued : Nat
  dispatched : Nat
  completed : Nat
deriving DecidableEq, Repr

/-- `activeCount` (`_active` in the source): dispatches minus completions. -/
def PumpState.active (s : PumpState) : Int :=
  (s.dispatched : Int) - (s.completed : Int)

/-- Atomic transitions of the queue.  `submit` is `runQueued` pushing an
entry (line 25); `dispatch` is the synchronous prefix of `_pump`:
it fires only when the guard `_active >= OPENAI_CONCURRENCY || !_queue.length`
of line 18 is false, shifts the queue and increments `_active`;
`complete` is the `finally` of a previously dispatched, not yet completed
task decrementing `_active` exactly once (each dispatched task runs one
`finally`, so completions never exceed dispatches). -/
inductive PumpStep (C : Nat) : PumpState → PumpState → Prop
  | submit (s : PumpState) :
      PumpStep C s ⟨s.queued + 1, s.dispatched, s.completed⟩
  | dispatch (s : PumpState) (hact : s.active < (C : Int)) (hq : 0 < s.queued) :
      PumpStep C s ⟨s.queued - 1, s.dispatched + 1, s.completed⟩
  | complete (s : PumpState) (hrun : s.completed < s.dispatched) :
      PumpStep C s ⟨s.queued, s.dispatched, s.completed + 1⟩

/-- States reachable from the module-load state `_queue = []`, `_active = 0`. -/
inductive PumpReachable (C : Nat) : PumpState → Prop
  | init : PumpReachable C ⟨0, 0, 0⟩
  | step {s t : PumpState} : PumpReachable C s → PumpStep C s t → PumpReachable C t

/- ===================== RateWindow (`throttleRPM`, lines 28-39) ==================== -/

/-- The module-level mutable pair `_winStart` / `_reqInWindow` of lines 28-29. -/
structure RPMState where
  winStart : Int
  reqInWindow : Nat
deriving DecidableEq, Repr

/-- One call to `throttleRPM` (lines 30-39), entered at time `now`
(`Date.now()` in ms).  Returns the new state and the time at which the call
returns, i.e. at which the request is admitted.  The `sleep(wait)` branch is
modelled exactly: the caller wakes at `now + wait`, sets
`_winStart = Date.now()` (that same instant) and `_reqInWindow = 0`, and the
trailing `_reqInWindow++` makes the count 1. -/
def throttleRPM (limit : Nat) (st : RPMState) (now : Int) : RPMState × Int :=
  let st1 := if 60000 ≤ now - st.winStart then RPMState.mk now 0 else st
  if limit ≤ st1.reqInWindow then
    let wait := 60000 - (now - st1.winStart) + 50
    (⟨now + wait, 1⟩, now + wait)
  else
    (⟨st1.winStart, st1.reqInWindow + 1⟩, now)

/-- Run a sequence of calls arriving at the given times; returns the list of
admission times. -/
def throttleRun (limit : Nat) (st : RPMState) : List Int → List Int
  | [] => []
  | t :: ts =>
    let r := throttleRPM limit st t
    r.2 :: throttleRun limit r.1 ts

/-- Run a sequence of calls, recording for each admission the pair
(admission time, value of `_winStart` at the moment of admission). -/
def throttleTrace (limit : Nat) (st : RPMState) : List Int → List (Int × Int)
  | [] => []
  | t :: ts =>
    let r := throttleRPM limit st t
    (r.2, r.1.winStart) :: throttleTrace limit r.1 ts

/-- Number of admission times falling in the half-open window `[w, w + 60000)`. -/
def admittedInWindow (w : Int) (admits : List Int) : Nat :=
  (admits.filter (fun a => decide (w ≤ a) && decide (a < w + 60000))).length

/-- `sequentialCalls limit st ts` holds when each call arrives no earlier
than the gate's current `_winStart` — true of any real execution, where
`_winStart` is only ever set to the current clock value, so a later call's
`Date.now()` can never precede it. -/
def sequentialCalls (limit : Nat) (st : RPMState) : List Int → Bool
  | [] => true
  | t :: ts => decide (st.winStart ≤ t) && sequentialCalls limit (throttleRPM limit st t).1 ts

/- ===================== RetryExecutor (`withRetries`, lines 42-53) ==================== -/

/-- A thrown JS error as inspected by `withRetries`: the fields read by
`e?.status || e?.code || e?.response?.status` (line 47).  A missing field is
`none`; a numeric field is `some n` (a string-valued `code`, as some SDKs
use, behaves like a truthy non-429 number and is out of scope of the
claims, which only distinguish 429 from everything else). -/
structure JSError where
  status : Option Nat
  code : Option Nat
  respStatus : Option Nat
deriving DecidableEq, Repr

/-- JS `a || b` on optional numbers: `a` is kept when present and truthy
(nonzero), otherwise `b` is returned. -/
def jsOr (a b : Option Nat) : Option Nat :=
  match a with
  | some n => if n = 0 then b else some n
  | none => b

/-- The `status` extraction of line 47: `e?.status || e?.code || e?.response?.status`. -/
def errStatus (e : JSError) : Option Nat :=
  jsOr e.status (jsOr e.code e.respStatus)

/-- The retry loop of `withRetries` (lines 44-52), instrumented.  `fn k` is
the result of the (k+1)-th invocation of `fn`; `jitter k` is the value of
`Math.random()*150` drawn before the retry that follows attempt `k`.
Returns (final result, list of `sleep` durations in ms, number of
invocations of `fn`).  Attempt `i` retries exactly when the extracted
status is 429 and `i < retries`, sleeping `base * 2^i + jitter i` first. -/
def withRetriesGo (fn : Nat → Except JSError α) (jitter : Nat → ℚ)
    (retries base i : Nat) : Except JSError α × List ℚ × Nat :=
  match fn i with
  | .ok a => (.ok a, [], 1)
  | .error e =>
    if h : errStatus e ≠ some 429 ∨ retries ≤ i then (.error e, [], 1)
    else
      let r := withRetriesGo fn jitter retries base (i + 1)
      (r.1, ((base * 2 ^ i : ℚ) + jitter i) :: r.2.1, r.2.2 + 1)
termination_by retries + 1 - i
decreasing_by
  push_neg at h
  omega

/-- `withRetries(fn, {retries, base})` of lines 42-53 (the destructured
options default to `retries = 3`, `base = 500`), starting at `i = 0`. -/
def withRetries (fn : Nat → Except JSError α) (jitter : Nat → ℚ)
    (retries base : Nat) : Except JSError α × List ℚ × Nat :=
  withRetriesGo fn jitter retries base 0

/- ===================== chunkText (lines 98-107) and the summary pipeline ==================== -/

/-- `chunkText(txt, max)` of lines 98-107: slices of `max` characters taken
left to right, the last possibly shorter.  The source loop `i += max` with
`max = 0` would never terminate; the guard returning `[]` for `max = 0` is
only there to make the definition total (every call site uses `max = 8000`). -/
def chunkText (txt : List Char) (max : Nat) : List (List Char) :=
  if h : txt = [] ∨ max = 0 then []
  else txt.take max :: chunkText (txt.drop max) max
termination_by txt.length
decreasing_by
  push_neg at h
  have hlen : txt.length ≠ 0 := by
    intro hc
    exact h.1 (List.eq_nil_of_length_eq_zero hc)
  simp only [List.length_drop]
  omega

/-- Number of generation-backend calls performed by `POST /api/summary`
(lines 285-312): one `buildSummary` per chunk of `chunkText(text, 8000)`
plus, when more than one partial was produced and a backend is configured
(`partials.length > 1 && HAS_OPENAI`, line 303), one merge call. -/
def summaryGeneratorCalls (hasOpenAI : Bool) (text : List Char) : Nat :=
  let chunks := chunkText text 8000
  chunks.length + (if 1 < chunks.length ∧ hasOpenAI = true then 1 else 0)

/- ===================== SpreadScheduler (`computeSpreadDelay`, lines 198-207) ==================== -/

/-- `computeSpreadDelay(totalChars)` of lines 198-207.  `Math.floor` on the
JS float `(clamped / span) * MAX_MS` is embedded as the rational floor; for
integer `clamped` in `[0, 42000]` the products involved are far below 2^53,
where the float computation is monotone and exact at the endpoints. -/
def computeSpreadDelay (hasOpenAI : Bool) (totalChars : Int) : Int :=
  if hasOpenAI = false then 0
  else
    let minThreshold : Int := 8000
    let maxThreshold : Int := 50000
    let maxMs : Int := 120000
    let clamped := max 0 (min maxThreshold totalChars - minThreshold)
    if clamped ≤ 0 then 0
    else
      let span := maxThreshold - minThreshold
      ⌊((clamped : ℚ) / (span : ℚ)) * (maxMs : ℚ)⌋

/- ===================== Tolerant JSON extraction (`safeJSON`, lines 109-130) ==================== -/

/-- The backtick character. -/
def bt : Char := '\x60'

/-- Does the string begin with three backticks? -/
def startsTicks : List Char → Bool
  | a :: b :: c :: _ => decide (a = bt) && decide (b = bt) && decide (c = bt)
  | _ => false

/-- JavaScript regex `\s` (ECMAScript WhiteSpace ∪ LineTerminator). -/
def isJsWs (c : Char) : Bool :=
  let n := c.toNat
  decide ((9 ≤ n ∧ n ≤ 13) ∨ n = 32 ∨ n = 160 ∨ n = 5760 ∨ (8192 ≤ n ∧ n ≤ 8202) ∨
    n = 8232 ∨ n = 8233 ∨ n = 8239 ∨ n = 8287 ∨ n = 12288 ∨ n = 65279)

/-- ECMAScript LineTerminator (what multiline `$`/`^` anchor around). -/
def isLineTerm (c : Char) : Bool :=
  let n := c.toNat
  decide (n = 10 ∨ n = 13 ∨ n = 8232 ∨ n = 8233)

/-- Case-insensitive match of the literal `json` (the `i` flag of the
regex on line 112); returns the remainder on success. -/
def ciJson : List Char → Option (List Char)
  | a :: b :: c :: d :: rest =>
    if (decide (a = 'j') || decide (a = 'J')) && (decide (b = 'o') || decide (b = 'O')) &&
       (decide (c = 's') || decide (c = 'S')) && (decide (d = 'n') || decide (d = 'N')) then
      some rest
    else none
  | _ => none

/-- The prefix of the string before its first occurrence of three backticks
(`none` when there is no such occurrence): the lazy `([\s\S]*?)` followed by
the closing fence. -/
def upToTicks : List Char → Option (List Char)
  | [] => none
  | c :: rest =>
    if startsTicks (c :: rest) then some []
    else (upToTicks rest).map (fun p => c :: p)

/-- Attempt the regex `/\x60\x60\x60json\s*([\s\S]*?)\x60\x60\x60/i` of line 112
anchored at the start of `s`: three backticks, `json` case-insensitively, a
greedy whitespace run (whose characters can never include a backtick, so
greediness commits), then the lazy capture up to the first closing fence.
Returns the capture group `m[1]`. -/
def tryJsonFenceAt (s : List Char) : Option (List Char) :=
  if startsTicks s then
    match ciJson (s.drop 3) with
    | some afterJson => upToTicks (afterJson.dropWhile isJsWs)
    | none => none
  else none

/-- Leftmost match of the fenced-JSON regex of line 112 over the whole
string (JS regexes try each start position left to right), returning the
capture group. -/
def fenceJsonCapture : List Char → Option (List Char)
  | [] => none
  | c :: rest =>
    match tryJsonFenceAt (c :: rest) with
    | some cap => some cap
    | none => fenceJsonCapture rest

/-- Find the earliest closing fence for the multiline regex of line 115: a
split `l = pre ++ ticks ++ rest` where the three backticks are followed by a
line end (`$` with the `m` flag: end of input or a LineTerminator), with
`pre` minimal (the `[\s\S]*?` is lazy).  Returns `(pre, rest)`. -/
def findClose : List Char → Option (List Char × List Char)
  | [] => none
  | c :: rest =>
    if startsTicks (c :: rest) &&
        (decide ((c :: rest).drop 3 = []) || ((c :: rest).drop 3).any (fun _ => true) &&
          isLineTerm (((c :: rest).drop 3).headD ' ')) then
      some ([], (c :: rest).drop 3)
    else (findClose rest).map (fun pr => (c :: pr.1, pr.2))

/-- The inner replacement of line 115, `x.replace(/\x60\x60\x60/g, '')`:
remove every (left-to-right, non-overlapping) occurrence of three backticks. -/
def removeTicks : Nat → List Char → List Char
  | 0, s => s
  | _ + 1, [] => []
  | fuel + 1, c :: rest =>
    if startsTicks (c :: rest) then removeTicks fuel ((c :: rest).drop 3)
    else c :: removeTicks fuel rest

/-- The generic fence strip of line 115,
`s.replace(/^\x60\x60\x60[\s\S]*?\x60\x60\x60$/gm, x => x.replace(/\x60\x60\x60/g, ''))`:
scan the string; at each line start (`atLS`) where three backticks open a
fence that has a line-ending closing fence, replace the whole matched block
by the block with its backtick triples removed, and resume after it. -/
def stripFencesGo : Nat → Bool → List Char → List Char
  | 0, _, s => s
  | _ + 1, _, [] => []
  | fuel + 1, atLS, c :: rest =>
    if atLS && startsTicks (c :: rest) then
      match findClose ((c :: rest).drop 3) with
      | some (pre, after) =>
        removeTicks ((bt :: bt :: bt :: pre).length + 4) (bt :: bt :: bt :: (pre ++ [bt, bt, bt])) ++
          stripFencesGo fuel false after
      | none => c :: stripFencesGo fuel (isLineTerm c) rest
    else c :: stripFencesGo fuel (isLineTerm c) rest

/-- `stripFences s`: the whole-string generic fence strip (line 115),
starting at a line start (`^` matches at position 0). -/
def stripFences (s : List Char) : List Char :=
  stripFencesGo (s.length + 1) true s

/-- Is a backtick triple present anywhere in the string? -/
def hasTicks : List Char → Bool
  | [] => false
  | c :: rest => startsTicks (c :: rest) || hasTicks rest

/- ===================== JSON.parse (ECMA-404 / ECMAScript `JSON.parse`) ==================== -/

/-- A parsed JSON value as produced by `JSON.parse`.  Objects are kept as
ordered member lists; numbers are exact rationals (IEEE rounding of
extreme literals, and lone `\u` surrogates, are outside the scope of the
claims, whose values are small integers and ASCII strings). -/
inductive JVal where
  | jnull : JVal
  | jbool : Bool → JVal
  | jnum : ℚ → JVal
  | jstr : List Char → JVal
  | jarr : List JVal → JVal
  | jobj : List (List Char × JVal) → JVal
deriving Repr

/-- JSON whitespace (`JSON.parse` accepts only space, tab, LF, CR). -/
def jsonWsChar (c : Char) : Bool :=
  decide (c = ' ') || decide (c = '\t') || decide (c = '\n') || decide (c = '\r')

/-- Drop leading JSON whitespace. -/
def skipJsonWs (s : List Char) : List Char :=
  s.dropWhile jsonWsChar

/-- Value of a hexadecimal digit. -/
def hexVal (c : Char) : Option Nat :=
  if '0' ≤ c ∧ c ≤ '9' then some (c.toNat - 48)
  else if 'a' ≤ c ∧ c ≤ 'f' then some (c.toNat - 87)
  else if 'A' ≤ c ∧ c ≤ 'F' then some (c.toNat - 55)
  else none

/-- Single-character JSON string escapes. -/
def escChar (e : Char) : Option Char :=
  if e = '"' then some '"'
  else if e = '\\' then some '\\'
  else if e = '/' then some '/'
  else if e = 'b' then some (Char.ofNat 8)
  else if e = 'f' then some (Char.ofNat 12)
  else if e = 'n' then some '\n'
  else if e = 'r' then some '\r'
  else if e = 't' then some '\t'
  else none

/-- Parse the body of a JSON string, after the opening quote, up to and
including the closing quote; raw control characters below U+0020 are a
syntax error.  Returns (string contents, remaining input). -/
def parseStrBody : Nat → List Char → Option (List Char × List Char)
  | 0, _ => none
  | _ + 1, [] => none
  | fuel + 1, c :: rest =>
    if c = '"' then some ([], rest)
    else if c = '\\' then
      match rest with
      | [] => none
      | e :: rest2 =>
        if e = 'u' then
          match rest2 with
          | h1 :: h2 :: h3 :: h4 :: rest3 =>
            match hexVal h1, hexVal h2, hexVal h3, hexVal h4 with
            | some a, some b, some c2, some d =>
              (parseStrBody fuel rest3).map
                (fun pr => (Char.ofNat (((a * 16 + b) * 16 + c2) * 16 + d) :: pr.1, pr.2))
            | _, _, _, _ => none
          | _ => none
        else
          match escChar e with
          | some ch => (parseStrBody fuel rest2).map (fun pr => (ch :: pr.1, pr.2))
          | none => none
    else if c.toNat < 32 then none
    else (parseStrBody fuel rest).map (fun pr => (c :: pr.1, pr.2))

/-- Decimal digit test. -/
def isDigit (c : Char) : Bool := decide ('0' ≤ c) && decide (c ≤ '9')

/-- Numeric value of a digit list. -/
def digitsVal (ds : List Char) : Nat :=
  ds.foldl (fun acc c => acc * 10 + (c.toNat - 48)) 0

/-- Parse the optional fraction and exponent of a JSON number after its
integer part `ip`, and produce the exact value. -/
def finishNumber (neg : Bool) (ip : Nat) (s : List Char) : Option (ℚ × List Char) :=
  let fr : Option ((Nat × Nat) × List Char) :=
    match s with
    | c :: rest =>
      if c = '.' then
        let ds := rest.takeWhile isDigit
        if ds = [] then none
        else some ((digitsVal ds, ds.length), rest.dropWhile isDigit)
      else some ((0, 0), s)
    | [] => some ((0, 0), s)
  match fr with
  | none => none
  | some ((fv, fl), s1) =>
    let ex : Option ((Bool × Nat) × List Char) :=
      match s1 with
      | c :: rest =>
        if c = 'e' ∨ c = 'E' then
          let (eneg, rest2) :=
            match rest with
            | c2 :: rest2 =>
              if c2 = '+' then (false, rest2)
              else if c2 = '-' then (true, rest2)
              else (false, rest)
            | [] => (false, rest)
          let ds := rest2.takeWhile isDigit
          if ds = [] then none
          else some ((eneg, digitsVal ds), rest2.dropWhile isDigit)
        else some ((false, 0), s1)
      | [] => some ((false, 0), s1)
    match ex with
    | none => none
    | some ((eneg, ev), s2) =>
      let num0 : Nat := ip * 10 ^ fl + fv
      let q : ℚ :=
        if eneg then
          mkRat (if neg then -(num0 : Int) else (num0 : Int)) (10 ^ fl * 10 ^ ev)
        else
          mkRat (if neg then -((num0 * 10 ^ ev : Nat) : Int) else ((num0 * 10 ^ ev : Nat) : Int))
            (10 ^ fl)
      some (q, s2)

/-- Parse a JSON number (`-? (0 | [1-9][0-9]*) frac? exp?`). -/
def parseNumber (s : List Char) : Option (ℚ × List Char) :=
  let sgn : Bool × List Char :=
    match s with
    | c :: rest => if c = '-' then (true, rest) else (false, s)
    | [] => (false, s)
  match sgn.2 with
  | [] => none
  | c :: rest =>
    if c = '0' then finishNumber sgn.1 0 rest
    else if isDigit c then
      finishNumber sgn.1 (digitsVal (c :: rest.takeWhile isDigit)) (rest.dropWhile isDigit)
    else none

mutual

/-- JSON `element`: whitespace, a value, whitespace. -/
def parseElem : Nat → List Char → Option (JVal × List Char)
  | 0, _ => none
  | fuel + 1, s =>
    match parseVal fuel (skipJsonWs s) with
    | some (v, r) => some (v, skipJsonWs r)
    | none => none

/-- JSON `value` at the head of the input. -/
def parseVal : Nat → List Char → Option (JVal × List Char)
  | 0, _ => none
  | fuel + 1, s =>
    match s with
    | [] => none
    | c :: rest =>
      if c = '\x7b' then
        match skipJsonWs rest with
        | c2 :: rest2 =>
          if c2 = '\x7d' then some (.jobj [], rest2)
          else
            match parseMembers fuel (c2 :: rest2) with
            | some (ms, r2) => some (.jobj ms, r2)
            | none => none
        | [] => none
      else if c = '[' then
        match skipJsonWs rest with
        | c2 :: rest2 =>
          if c2 = ']' then some (.jarr [], rest2)
          else
            match parseElems fuel (c2 :: rest2) with
            | some (vs, r2) => some (.jarr vs, r2)
            | none => none
        | [] => none
      else if c = '"' then
        match parseStrBody (rest.length + 1) rest with
        | some (str, r) => some (.jstr str, r)
        | none => none
      else if c = 't' then
        match s with
        | 't' :: 'r' :: 'u' :: 'e' :: r => some (.jbool true, r)
        | _ => none
      else if c = 'f' then
        match s with
        | 'f' :: 'a' :: 'l' :: 's' :: 'e' :: r => some (.jbool false, r)
        | _ => none
      else if c = 'n' then
        match s with
        | 'n' :: 'u' :: 'l' :: 'l' :: r => some (.jnull, r)
        | _ => none
      else
        match parseNumber s with
        | some (q, r) => some (.jnum q, r)
        | none => none

/-- JSON object members after the opening brace (input known non-empty and
not an immediate closing brace); consumes the closing brace. -/
def parseMembers : Nat → List Char → Option (List (List Char × JVal) × List Char)
  | 0, _ => none
  | fuel + 1, s =>
    match skipJsonWs s with
    | c :: rest =>
      if c = '"' then
        match parseStrBody (rest.length + 1) rest with
        | some (k, r1) =>
          match skipJsonWs r1 with
          | c2 :: rest2 =>
            if c2 = ':' then
              match parseElem fuel rest2 with
              | some (v, r3) =>
                match r3 with
                | c3 :: rest3 =>
                  if c3 = ',' then
                    match parseMembers fuel rest3 with
                    | some (ms, r4) => some ((k, v) :: ms, r4)
                    | none => none
                  else if c3 = '\x7d' then some ([(k, v)], rest3)
                  else none
                | [] => none
              | none => none
            else none
          | [] => none
        | none => none
      else none
    | [] => none

/-- JSON array elements after the opening bracket (input known non-empty and
not an immediate closing bracket); consumes the closing bracket. -/
def parseElems : Nat → List Char → Option (List JVal × List Char)
  | 0, _ => none
  | fuel + 1, s =>
    match parseElem fuel s with
    | some (v, r) =>
      match r with
      | c :: rest =>
        if c = ',' then
          match parseElems fuel rest with
          | some (vs, r2) => some (v :: vs, r2)
          | none => none
        else if c = ']' then some ([v], rest)
        else none
      | [] => none
    | none => none

end

/-- `JSON.parse(s)`: parse one element and require the input to be
exhausted.  The fuel `2 * s.length + 8` dominates the recursion depth,
since every nesting level and every member/element step consumes at least
one character. -/
def jsonParse (s : List Char) : Option JVal :=
  match parseElem (2 * s.length + 8) s with
  | some (v, r) => if r = [] then some v else none
  | none => none

/-- `String.prototype.indexOf` for a single character (`-1` becomes `none`). -/
def idxOfGo (c : Char) : List Char → Nat → Option Nat
  | [], _ => none
  | x :: xs, i => if x = c then some i else idxOfGo c xs (i + 1)

/-- First index of a character in the string, if any. -/
def idxOf (c : Char) (s : List Char) : Option Nat :=
  idxOfGo c s 0

/-- `String.prototype.lastIndexOf` for a single character. -/
def lastIdxOf (c : Char) (s : List Char) : Option Nat :=
  match idxOfGo c s.reverse 0 with
  | some i => some (s.length - 1 - i)
  | none => none

/-- The failure modes of `safeJSON`: the empty-input throw of line 111
("Risposta IA vuota"), the no-JSON throw of line 121 ("Nessun JSON
trovato"), and a `SyntaxError` escaping from the final `JSON.parse` of
line 129. -/
inductive SafeErr where
  | emptyInput : SafeErr
  | noJsonFound : SafeErr
  | syntaxError : SafeErr
deriving DecidableEq, Repr

/-- Lines 123-129 of `safeJSON`: slice the candidate from the first
brace/bracket, truncate it after the last `\x7d` or `]` when one exists
(`Math.max` of the two `lastIndexOf` results, `-1` meaning absent), and
`JSON.parse` the result. -/
def parseCandidate (candidate : List Char) : Except SafeErr JVal :=
  let cand2 :=
    match lastIdxOf '\x7d' candidate, lastIdxOf ']' candidate with
    | none, none => candidate
    | some i, none => candidate.take (i + 1)
    | none, some j => candidate.take (j + 1)
    | some i, some j => candidate.take (max i j + 1)
  match jsonParse cand2 with
  | some v => .ok v
  | none => .error .syntaxError

/-- Lines 112-115 of `safeJSON`: replace the input by the capture group of
the fenced-JSON regex when it matches, then strip generic fences. -/
def preprocessed (s : List Char) : List Char :=
  stripFences
    (match fenceJsonCapture s with
     | some cap => cap
     | none => s)

/-- `safeJSON(s)` of lines 109-130: reject empty input; extract the fenced
JSON block when the regex of line 112 matches; strip generic fences
(line 115); try a direct `JSON.parse`; otherwise slice from the first
`\x7b` or `[` (their `indexOf` minimum when both occur) and parse the
truncated candidate. -/
def safeJSON (s : List Char) : Except SafeErr JVal :=
  if s = [] then .error .emptyInput
  else
    let s2 := preprocessed s
    match jsonParse s2 with
    | some v => .ok v
    | none =>
      match idxOf '\x7b' s2, idxOf '[' s2 with
      | none, none => .error .noJsonFound
      | some i, none => parseCandidate (s2.drop i)
      | none, some j => parseCandidate (s2.drop j)
      | some i, some j => parseCandidate (s2.drop (min i j))

/- ===================== Quiz sanitization (`POST /api/quiz`, lines 338-352) ==================== -/

/-- A question as generated upstream, before sanitization: `options` is
`none` when the field is not an array (`Array.isArray` fails), `correct`
is the integer value of `parseInt(q.correct, 10) || 0`, `explanation` is
`none` when the field is absent/falsy. -/
structure RawQuestion where
  question : List Char
  options : Option (List (List Char))
  correct : Int
  explanation : Option (List Char)
deriving DecidableEq, Repr

/-- A sanitized question as pushed on line 348. -/
structure SanQuestion where
  question : List Char
  options : List (List Char)
  correct : Int
  explanation : List Char
deriving DecidableEq, Repr

/-- `String.prototype.trim`: strip ECMAScript whitespace and line
terminators from both ends. -/
def jsTrim (s : List Char) : List Char :=
  ((s.dropWhile isJsWs).reverse.dropWhile isJsWs).reverse

/-- The dedup key of line 342: `(q.question || '').trim().toLowerCase()`
(lower-casing embedded for the ASCII range). -/
def qKey (q : RawQuestion) : List Char :=
  (jsTrim q.question).map Char.toLower

/-- The sanitization loop of lines 339-350: `seen` is the `Set` of keys,
`uniq` the accumulated output; a question with an empty or already-seen key
is skipped; otherwise its key is recorded, then it is dropped if it has
fewer than 4 options, else pushed with options truncated to 4 and
`correct` clamped by `Math.max(0, Math.min(·, 3))`; the loop breaks once
`uniq.length >= n`. -/
def sanitizeGo (n : Nat) : List RawQuestion → List (List Char) → List SanQuestion → List SanQuestion
  | [], _, uniq => uniq
  | q :: rest, seen, uniq =>
    let key := qKey q
    if key = [] ∨ key ∈ seen then sanitizeGo n rest seen uniq
    else
      let seen2 := key :: seen
      let opts :=
        match q.options with
        | some os => os.take 4
        | none => []
      if opts.length < 4 then sanitizeGo n rest seen2 uniq
      else
        let uniq2 := uniq ++ [⟨q.question, opts, max 0 (min q.correct 3), q.explanation.getD []⟩]
        if n ≤ uniq2.length then uniq2 else sanitizeGo n rest seen2 uniq2

/-- The whole sanitization step, from the generated question list and the
requested count `n`. -/
def sanitizeQuiz (n : Nat) (qs : List RawQuestion) : List SanQuestion :=
  sanitizeGo n qs [] []

/- ===================== Flashcard fallback (`dummyFlashcards`, `buildFlashcards`) ==================== -/

/-- A flashcard as pushed on line 153. -/
structure Flashcard where
  front : List Char
  back : List Char
  difficulty : List Char
  tags : List (List Char)
deriving DecidableEq, Repr

/-- One character of the replace on line 149 (regex class: ASCII letters,
the range U+00C0 to U+00FF, digits, space, all negated):
keep ASCII letters, digits, the space, and U+00C0-U+00FF; everything else
becomes a space. -/
def keepWordChar (c : Char) : Char :=
  let n := c.toNat
  if (65 ≤ n ∧ n ≤ 90) ∨ (97 ≤ n ∧ n ≤ 122) ∨ (48 ≤ n ∧ n ≤ 57) ∨ (192 ≤ n ∧ n ≤ 255) ∨ n = 32
  then c else ' '

/-- `String.prototype.split(' ')`: split on each single space, keeping
empty pieces. -/
def splitSp : List Char → List (List Char)
  | [] => [[]]
  | c :: rest =>
    if c = ' ' then [] :: splitSp rest
    else
      match splitSp rest with
      | w :: ws => (c :: w) :: ws
      | [] => [[c]]

/-- `Array.from(new Set(xs))`: deduplicate keeping first occurrences in
insertion order. -/
def dedupFirst (seen : List (List Char)) : List (List Char) → List (List Char)
  | [] => []
  | x :: xs => if x ∈ seen then dedupFirst seen xs else x :: dedupFirst (x :: seen) xs

/-- `dummyFlashcards(text, n)` of lines 148-156: candidate terms are the
deduplicated words of length > 6 of the cleaned text, at most 100; then
`min(n, 20)` cards are built, card `i` fronting `words[i]` or the fallback
`Concetto i+1`. -/
def dummyFlashcards (text : List Char) (n : Nat) : List Flashcard :=
  let words :=
    (dedupFirst [] ((splitSp (text.map keepWordChar)).filter (fun w => 6 < w.length))).take 100
  (List.range (min n 20)).map (fun i =>
    let w := words.getD i []
    let term := if w = [] then ("Concetto ".toList ++ (Nat.repr (i + 1)).toList) else w
    { front := term
      back := "Definizione sintetica di ".toList ++ term ++ ".".toList
      difficulty := "media".toList
      tags := [] })

/-- The request-governance interactions a generation can perform. -/
inductive GenEffect where
  | queueSubmit : GenEffect
  | rateGate : GenEffect
  | retryWrap : GenEffect
  | upstreamCall : GenEffect
deriving DecidableEq, Repr

/-- `buildFlashcards` (lines 225-239), instrumented with its
request-governance interactions.  Without a backend (`!HAS_OPENAI`,
line 226) it returns the deterministic fallback at once, performing none.
With a backend it delegates to `askOpenAI_JSON` (lines 174-193), which
submits to the queue (`runQueued`), passes the rate gate (`throttleRPM`),
wraps the upstream network call in `withRetries`, and whose value depends
on the network response — abstracted here as `none`, since no claim
concerns that value. -/
def buildFlashcards (hasOpenAI : Bool) (text : List Char) (n : Nat) :
    Option (List Flashcard) × List GenEffect :=
  if hasOpenAI = false then (some (dummyFlashcards text n), [])
  else (none, [.queueSubmit, .rateGate, .retryWrap, .upstreamCall])

/- ===================== Theorems ==================== -/

/-- C1: in every state the bounded queue can reach — under any interleaving
of submissions (`runQueued`), dispatches and completions — the shared
counter `_active` satisfies `0 <= activeCount <= concurrencyLimit`: a task
is dispatched (incrementing `_active`) only under the `_active < limit`
guard of `_pump`, and each dispatched task decrements `_active` exactly
once on completion, success or failure alike. -/
theorem activeCount_bounded {C : Nat} {s : PumpState} (h : PumpReachable C s) :
    0 ≤ s.active ∧ s.active ≤ (C : Int) := by
  have key : s.completed ≤ s.dispatched ∧ s.dispatched ≤ s.completed + C := by
    induction h with
    | init => simp
    | step hr hstep ih =>
      cases hstep with
      | submit => simpa using ih
      | dispatch hact hq =>
        simp only [PumpState.active] at hact
        dsimp only
        omega
      | complete hrun =>
        dsimp only
        omega
  simp only [PumpState.active]
  omega

/-- Witness for C1: a concrete reachable state (one submission, then one
dispatch, with limit 2) satisfies the bounds. -/
theorem activeCount_bounded_witness :
    0 ≤ (PumpState.mk 0 1 0).active ∧ (PumpState.mk 0 1 0).active ≤ ((2 : Nat) : Int) :=
  activeCount_bounded
    (PumpReachable.step
      (PumpReachable.step PumpReachable.init (PumpStep.submit ⟨0, 0, 0⟩))
      (PumpStep.dispatch ⟨1, 0, 0⟩ (by decide) (by decide)))

/-- Unrolled behaviour of `withRetriesGo` when attempts `i, i+1, ...` up to
`retries - 1` all fail with status 429 and attempt `retries` succeeds. -/
theorem withRetriesGo_429_run (fn : Nat → Except JSError α) (jitter : Nat → ℚ)
    (retries base : Nat) (a : α) :
    ∀ k i, retries - i = k → i ≤ retries →
      (∀ j, i ≤ j → j < retries → ∃ e, fn j = .error e ∧ errStatus e = some 429) →
      fn retries = .ok a →
      withRetriesGo fn jitter retries base i =
        (.ok a, (List.range (retries - i)).map (fun j => (base * 2 ^ (i + j) : ℚ) + jitter (i + j)),
          retries - i + 1) := by
  intro k
  induction k with
  | zero =>
    intro i hk hle hfail hok
    have hi : i = retries := by omega
    subst hi
    rw [withRetriesGo, hok]
    simp [hk]
  | succ k ih =>
    intro i hk hle hfail hok
    have hilt : i < retries := by omega
    obtain ⟨e, hfe, hst⟩ := hfail i le_rfl hilt
    rw [withRetriesGo, hfe]
    dsimp only
    rw [dif_neg (by simp only [hst, ne_eq, not_true_eq_false, false_or, not_le]; omega)]
    rw [ih (i + 1) (by omega) (by omega) (fun j hj hjr => hfail j (by omega) hjr) hok]
    have hrw : retries - i = (retries - (i + 1)) + 1 := by omega
    rw [hrw, List.range_succ_eq_map]
    simp only [Prod.mk.injEq, List.map_cons, List.map_map]
    refine ⟨trivial, ?_, trivial⟩
    congr 1
    refine List.map_congr_left ?_
    intro j hj
    have hij : i + 1 + j = i + (j + 1) := by omega
    simp only [Function.comp_apply, Nat.succ_eq_add_one, hij]

/-- C3: when `fn` fails with a 429 rate-limit error on exactly its first
`retries` invocations and succeeds on the next, `withRetries(fn, {retries,
base})` returns the success value after exactly `retries + 1` invocations,
and the sleep before the retry following failed attempt `i` (0-indexed) is
`base * 2^i` plus the jitter `Math.random()*150`, which lies in `[0, 150)`. -/
theorem withRetries_429_then_success (fn : Nat → Except JSError α) (jitter : Nat → ℚ)
    (retries base : Nat) (a : α)
    (hfail : ∀ k, k < retries → ∃ e, fn k = .error e ∧ errStatus e = some 429)
    (hok : fn retries = .ok a)
    (hjit : ∀ k, 0 ≤ jitter k ∧ jitter k < 150) :
    withRetries fn jitter retries base =
      (.ok a, (List.range retries).map (fun i => (base * 2 ^ i : ℚ) + jitter i), retries + 1)
    ∧ ∀ i, i < retries →
        (base * 2 ^ i : ℚ) ≤ ((List.range retries).map (fun i => (base * 2 ^ i : ℚ) + jitter i)).getD i 0
        ∧ ((List.range retries).map (fun i => (base * 2 ^ i : ℚ) + jitter i)).getD i 0
            < (base * 2 ^ i : ℚ) + 150 := by
  constructor
  · have h := withRetriesGo_429_run fn jitter retries base a retries 0 rfl (Nat.zero_le _)
      (fun j _ hj => hfail j hj) hok
    rw [withRetries, h]
    simp
  · intro i hi
    have hget : ((List.range retries).map (fun i => (base * 2 ^ i : ℚ) + jitter i)).getD i 0 =
        (base * 2 ^ i : ℚ) + jitter i := by
      rw [List.getD_eq_getElem _ _ (by simpa using hi)]
      simp
    rw [hget]
    constructor
    · linarith [(hjit i).1]
    · linarith [(hjit i).2]

/-- Witness for C3: `fn` failing with 429 on attempts 0 and 1 and returning
7 on attempt 2, with constant jitter 10 and base 500, yields 7 after 3
invocations with sleeps 510 and 1010. -/
theorem withRetries_429_then_success_witness :
    withRetries (fun k => if k < 2 then Except.error (JSError.mk (some 429) none none)
        else Except.ok (7 : Nat)) (fun _ => (10 : ℚ)) 2 500 =
      (Except.ok 7, (List.range 2).map (fun i => (((500 : Nat) : ℚ) * 2 ^ i) + 10), 3) := by
  refine (withRetries_429_then_success _ _ 2 500 7 ?_ rfl ?_).1
  · intro k hk
    interval_cases k <;> exact ⟨_, rfl, rfl⟩
  · intro k
    constructor <;> norm_num

/-- C4: when `fn` first fails with an error whose extracted status is not
429, `withRetries(fn)` invokes `fn` exactly once and propagates that same
error, with no backoff sleep. -/
theorem withRetries_non429_single (fn : Nat → Except JSError α) (jitter : Nat → ℚ)
    (retries base : Nat) (e : JSError)
    (h0 : fn 0 = .error e) (hst : errStatus e ≠ some 429) :
    withRetries fn jitter retries base = (.error e, [], 1) := by
  rw [withRetries, withRetriesGo, h0]
  dsimp only
  rw [dif_pos (Or.inl hst)]

/-- Witness for C4: a function always throwing a 500-status error is
invoked once and its error propagated unchanged. -/
theorem withRetries_non429_single_witness :
    withRetries (fun _ => (Except.error (JSError.mk (some 500) none none) : Except JSError Nat))
        (fun _ => (10 : ℚ)) 3 500 = (Except.error (JSError.mk (some 500) none none), [], 1) :=
  withRetries_non429_single _ _ 3 500 _ rfl (by decide)

/-- Length of the chunk list: the ceiling of `length / max`. -/
theorem chunkText_length (max : Nat) (hm : 0 < max) (txt : List Char) :
    (chunkText txt max).length = (txt.length + max - 1) / max := by
  suffices H : ∀ n (txt : List Char), txt.length = n →
      (chunkText txt max).length = (txt.length + max - 1) / max from H txt.length txt rfl
  intro n
  induction n using Nat.strong_induction_on with
  | _ n ih =>
    intro txt hlen
    rw [chunkText]
    by_cases hnil : txt = [] ∨ max = 0
    · rcases hnil with h1 | h2
      · subst h1
        simp [Nat.div_eq_of_lt (by omega : max - 1 < max)]
      · omega
    · rw [dif_neg hnil]
      push_neg at hnil
      have hpos : 0 < txt.length := by
        rcases Nat.eq_zero_or_pos txt.length with h0 | h0
        · exact absurd (List.eq_nil_of_length_eq_zero h0) hnil.1
        · exact h0
      have hrec := ih (txt.length - max) (by omega) (txt.drop max) (by simp [List.length_drop, hlen])
      simp only [List.length_cons, hrec, List.length_drop]
      have hL : txt.length + max - 1 = (txt.length - 1) + max := by omega
      rw [hL, Nat.add_div_right _ hm]
      rcases le_or_lt txt.length max with hle | hlt
      · have h1 : txt.length - max = 0 := by omega
        rw [h1]
        rw [Nat.div_eq_of_lt (by omega : 0 + max - 1 < max)]
        rw [Nat.div_eq_of_lt (by omega : txt.length - 1 < max)]
      · have h2 : txt.length - max + max - 1 = (txt.length - 1 - max) + max := by omega
        rw [h2, Nat.add_div_right _ hm]
        have h3 : txt.length - 1 = (txt.length - 1 - max) + max := by omega
        rw [h3, Nat.add_div_right _ hm, Nat.add_sub_cancel]

/-- C6: with a backend configured, a summary request whose extracted text
has exactly 20000 characters is split by `chunkText(·, 8000)` into 3 chunks
and performs 3 partial `buildSummary` generations plus 1 merge generation
(4 generator calls), while a 5000-character text yields a single chunk,
1 generation call and no merge pass. -/
theorem summary_generator_call_counts (t1 t2 : List Char)
    (h1 : t1.length = 20000) (h2 : t2.length = 5000) :
    (chunkText t1 8000).length = 3 ∧ summaryGeneratorCalls true t1 = 4
    ∧ (chunkText t2 8000).length = 1 ∧ summaryGeneratorCalls true t2 = 1 := by
  have c1 : (chunkText t1 8000).length = 3 := by
    rw [chunkText_length 8000 (by norm_num) t1, h1]
  have c2 : (chunkText t2 8000).length = 1 := by
    rw [chunkText_length 8000 (by norm_num) t2, h2]
  refine ⟨c1, ?_, c2, ?_⟩
  · rw [summaryGeneratorCalls, c1]
    norm_num
  · rw [summaryGeneratorCalls, c2]
    norm_num

/-- Witness for C6: concrete texts of 20000 and 5000 repeated characters. -/
theorem summary_generator_call_counts_witness :
    (chunkText (List.replicate 20000 'a') 8000).length = 3
    ∧ summaryGeneratorCalls true (List.replicate 20000 'a') = 4
    ∧ (chunkText (List.replicate 5000 'b') 8000).length = 1
    ∧ summaryGeneratorCalls true (List.replicate 5000 'b') = 1 :=
  summary_generator_call_counts (List.replicate 20000 'a') (List.replicate 5000 'b')
    (by rw [List.length_replicate]) (by rw [List.length_replicate])

/-- C7: with a backend configured, `computeSpreadDelay` returns 0 for every
size at or below the 8000-character minimum threshold (in particular at 0),
returns the 120000 ms maximum for every size at or above the 50000-character
maximum threshold, and is monotonically non-decreasing between the two
thresholds. -/
theorem computeSpreadDelay_spec :
    (∀ t : Int, t ≤ 8000 → computeSpreadDelay true t = 0)
    ∧ computeSpreadDelay true 0 = 0
    ∧ (∀ t : Int, 50000 ≤ t → computeSpreadDelay true t = 120000)
    ∧ (∀ a b : Int, 8000 ≤ a → a ≤ b → b ≤ 50000 →
        computeSpreadDelay true a ≤ computeSpreadDelay true b) := by
  have hb : ((true : Bool) = false) = False := by simp
  have low : ∀ t : Int, t ≤ 8000 → computeSpreadDelay true t = 0 := by
    intro t ht
    simp only [computeSpreadDelay, hb, if_false]
    split_ifs with hc
    · rfl
    · exfalso
      omega
  refine ⟨low, low 0 (by norm_num), ?_, ?_⟩
  · intro t ht
    simp only [computeSpreadDelay, hb, if_false]
    have hmin : min (50000 : Int) t = 50000 := min_eq_left ht
    rw [hmin]
    have hmax : max (0 : Int) (50000 - 8000) = 42000 := by decide
    rw [hmax]
    rw [if_neg (by omega : ¬ (42000 : Int) ≤ 0)]
    have hq : ((42000 : Int) : ℚ) / ((50000 - 8000 : Int) : ℚ) * ((120000 : Int) : ℚ)
        = ((120000 : Int) : ℚ) := by
      norm_num
    rw [hq, Int.floor_intCast]
  · intro a b ha hab hbb
    simp only [computeSpreadDelay, hb, if_false]
    split_ifs with hca hcb
    · exact le_refl 0
    · have hnn : (0 : ℚ) ≤ ((max 0 (min 50000 b - 8000) : Int) : ℚ) := by
        exact_mod_cast le_max_left (0 : Int) _
      have : (0 : ℚ) ≤ ((max 0 (min 50000 b - 8000) : Int) : ℚ)
          / ((50000 - 8000 : Int) : ℚ) * ((120000 : Int) : ℚ) := by
        apply mul_nonneg
        · apply div_nonneg hnn
          norm_num
        · norm_num
      calc (0 : Int) ≤ ⌊(0 : ℚ)⌋ := by norm_num
        _ ≤ _ := Int.floor_le_floor this
    · exfalso
      omega
    · apply Int.floor_le_floor
      have hcc : (max 0 (min 50000 a - 8000) : Int) ≤ max 0 (min 50000 b - 8000) := by omega
      have hccq : ((max 0 (min 50000 a - 8000) : Int) : ℚ)
          ≤ ((max 0 (min 50000 b - 8000) : Int) : ℚ) := by exact_mod_cast hcc
      have h42 : (0 : ℚ) < ((50000 - 8000 : Int) : ℚ) := by norm_num
      apply mul_le_mul_of_nonneg_right _ (by norm_num : (0 : ℚ) ≤ ((120000 : Int) : ℚ))
      exact (div_le_div_iff_of_pos_right h42).2 hccq

/-- Witness for C7: concrete instances of each conjunct — size 7000 and 0
give delay 0, size 60000 gives 120000, and the delay at 9000 is at most the
delay at 10000. -/
theorem computeSpreadDelay_spec_witness :
    computeSpreadDelay true 7000 = 0 ∧ computeSpreadDelay true 0 = 0
    ∧ computeSpreadDelay true 60000 = 120000
    ∧ computeSpreadDelay true 9000 ≤ computeSpreadDelay true 10000 :=
  ⟨computeSpreadDelay_spec.1 7000 (by norm_num), computeSpreadDelay_spec.2.1,
    computeSpreadDelay_spec.2.2.1 60000 (by norm_num),
    computeSpreadDelay_spec.2.2.2 9000 10000 (by norm_num) (by norm_num) (by norm_num)⟩

/-- C9: with no backend configured, flashcard generation on a non-empty
text with requested count `n >= 1` returns the deterministic fallback
`dummyFlashcards` synchronously, performing no queue submission, rate-gate
pass, retry wrap or upstream call, and the returned card sequence is
non-empty with length `min n 20 <= n` (a function of the input text and
`n` alone). -/
theorem flashcards_fallback (text : List Char) (n : Nat)
    (htext : text ≠ []) (hn : 1 ≤ n) :
    buildFlashcards false text n = (some (dummyFlashcards text n), [])
    ∧ (dummyFlashcards text n).length = min n 20
    ∧ 0 < (dummyFlashcards text n).length
    ∧ (dummyFlashcards text n).length ≤ n := by
  have hlen : (dummyFlashcards text n).length = min n 20 := by
    simp [dummyFlashcards]
  refine ⟨rfl, hlen, ?_, ?_⟩ <;> rw [hlen] <;> omega

/-- Witness for C9: a concrete short text with `n = 5`. -/
theorem flashcards_fallback_witness :
    buildFlashcards false ("la fotosintesi clorofilliana".toList) 5 =
      (some (dummyFlashcards ("la fotosintesi clorofilliana".toList) 5), [])
    ∧ (dummyFlashcards ("la fotosintesi clorofilliana".toList) 5).length = min 5 20
    ∧ 0 < (dummyFlashcards ("la fotosintesi clorofilliana".toList) 5).length
    ∧ (dummyFlashcards ("la fotosintesi clorofilliana".toList) 5).length ≤ 5 :=
  flashcards_fallback ("la fotosintesi clorofilliana".toList) 5 (by decide) (by decide)

/-- Without a backtick triple anywhere, the fenced-JSON regex cannot match. -/
theorem fenceJsonCapture_eq_none {s : List Char} (h : hasTicks s = false) :
    fenceJsonCapture s = none := by
  induction s with
  | nil => rfl
  | cons c rest ih =>
    rw [hasTicks, Bool.or_eq_false_iff] at h
    rw [fenceJsonCapture, tryJsonFenceAt, if_neg (by simp [h.1]), ih h.2]

/-- Without a backtick triple anywhere, the generic fence strip is the
identity. -/
theorem stripFencesGo_of_no_ticks :
    ∀ (fuel : Nat) (b : Bool) (s : List Char), hasTicks s = false →
      stripFencesGo fuel b s = s := by
  intro fuel
  induction fuel with
  | zero => intro b s h; rfl
  | succ fuel ih =>
    intro b s h
    match s with
    | [] => rfl
    | c :: rest =>
      rw [hasTicks, Bool.or_eq_false_iff] at h
      rw [stripFencesGo, if_neg (by simp [h.1]), ih (isLineTerm c) rest h.2]

/-- Without a backtick triple, the whole preprocessing of lines 112-115 is
the identity. -/
theorem preprocessed_of_no_ticks {s : List Char} (h : hasTicks s = false) :
    preprocessed s = s := by
  rw [preprocessed, fenceJsonCapture_eq_none h]
  exact stripFencesGo_of_no_ticks _ _ _ h

/-- C10: on a non-empty input with no triple-backtick fence that the
standard JSON parser accepts directly, tolerant extraction coincides with
direct parsing: `safeJSON` returns exactly the `JSON.parse` result, neither
the fence-stripping step nor the brace-slicing heuristic altering it. -/
theorem safeJSON_direct_parse (s : List Char) (v : JVal) (hne : s ≠ [])
    (hnf : hasTicks s = false) (hp : jsonParse s = some v) :
    safeJSON s = .ok v := by
  simp only [safeJSON, if_neg hne, preprocessed_of_no_ticks hnf, hp]

/-- Witness for C10: a well-formed unwrapped JSON object input. -/
theorem safeJSON_direct_parse_witness :
    safeJSON ("\x7b\"a\":1\x7d".toList) = .ok (JVal.jobj [("a".toList, JVal.jnum 1)]) :=
  safeJSON_direct_parse ("\x7b\"a\":1\x7d".toList) (JVal.jobj [("a".toList, JVal.jnum 1)])
    (by decide) (by rfl) (by rfl)

/-- A backtick-triple prefix pins down the first three characters. -/
theorem startsTicks_shape {s : List Char} (h : startsTicks s = true) :
    ∃ r, s = bt :: bt :: bt :: r := by
  match s with
  | [] => simp [startsTicks] at h
  | [a] => simp [startsTicks] at h
  | [a, b] => simp [startsTicks] at h
  | a :: b :: c :: r =>
    rw [startsTicks, Bool.and_eq_true, Bool.and_eq_true] at h
    obtain ⟨⟨h1, h2⟩, h3⟩ := h
    rw [decide_eq_true_eq] at h1 h2 h3
    exact ⟨r, by rw [h1, h2, h3]⟩

/-- Characters of the lazy capture come from the scanned string. -/
theorem upToTicks_mem : ∀ {s p : List Char}, upToTicks s = some p → ∀ x ∈ p, x ∈ s := by
  intro s
  induction s with
  | nil => intro p h; simp [upToTicks] at h
  | cons c rest ih =>
    intro p h x hx
    rw [upToTicks] at h
    by_cases hst : startsTicks (c :: rest) = true
    · rw [if_pos hst] at h
      simp only [Option.some.injEq] at h
      subst h
      simp at hx
    · rw [if_neg hst] at h
      obtain ⟨q, hq, hfq⟩ := Option.map_eq_some'.1 h
      subst hfq
      rcases List.mem_cons.1 hx with hx1 | hx2
      · exact hx1 ▸ List.mem_cons_self c rest
      · exact List.mem_cons_of_mem c (ih hq x hx2)

/-- Characters of the remainder after the case-insensitive `json` come from
the scanned string. -/
theorem ciJson_mem {s r : List Char} (h : ciJson s = some r) : ∀ x ∈ r, x ∈ s := by
  match s with
  | [] => simp [ciJson] at h
  | [a] => simp [ciJson] at h
  | [a, b] => simp [ciJson] at h
  | [a, b, c] => simp [ciJson] at h
  | a :: b :: c :: d :: rest =>
    rw [ciJson] at h
    split at h
    · simp only [Option.some.injEq] at h
      subst h
      intro x hx
      simp [hx]
    · exact absurd h (by simp)

/-- Characters of the fenced-JSON capture at one position come from the
scanned string. -/
theorem tryJsonFenceAt_mem {s cap : List Char} (h : tryJsonFenceAt s = some cap) :
    ∀ x ∈ cap, x ∈ s := by
  rw [tryJsonFenceAt] at h
  by_cases hst : startsTicks s = true
  · rw [if_pos hst] at h
    cases hcj : ciJson (s.drop 3) with
    | none => rw [hcj] at h; exact absurd h (by simp)
    | some afterJson =>
      rw [hcj] at h
      intro x hx
      have h1 : x ∈ afterJson.dropWhile isJsWs := upToTicks_mem h x hx
      have h2 : x ∈ afterJson := (List.dropWhile_sublist isJsWs).subset h1
      have h3 : x ∈ s.drop 3 := ciJson_mem hcj x h2
      exact List.mem_of_mem_drop h3
  · rw [if_neg hst] at h
    exact absurd h (by simp)

/-- Characters of the fenced-JSON capture come from the input. -/
theorem fenceJsonCapture_mem : ∀ {s cap : List Char}, fenceJsonCapture s = some cap →
    ∀ x ∈ cap, x ∈ s := by
  intro s
  induction s with
  | nil => intro cap h; simp [fenceJsonCapture] at h
  | cons c rest ih =>
    intro cap h x hx
    rw [fenceJsonCapture] at h
    cases htry : tryJsonFenceAt (c :: rest) with
    | some cap2 =>
      rw [htry] at h
      simp only [Option.some.injEq] at h
      subst h
      exact tryJsonFenceAt_mem htry x hx
    | none =>
      rw [htry] at h
      exact List.mem_cons_of_mem c (ih h x hx)

/-- Characters surviving the closing-fence search come from the input. -/
theorem findClose_mem : ∀ {l pre rest : List Char}, findClose l = some (pre, rest) →
    (∀ x ∈ pre, x ∈ l) ∧ (∀ x ∈ rest, x ∈ l) := by
  intro l
  induction l with
  | nil => intro pre rest h; simp [findClose] at h
  | cons c cs ih =>
    intro pre rest h
    rw [findClose] at h
    split at h
    · simp only [Option.some.injEq, Prod.mk.injEq] at h
      obtain ⟨h1, h2⟩ := h
      subst h1
      subst h2
      refine ⟨by simp, ?_⟩
      intro x hx
      exact List.mem_of_mem_drop hx
    · obtain ⟨⟨p2, r2⟩, hq, heq⟩ := Option.map_eq_some'.1 h
      simp only [Prod.mk.injEq] at heq
      obtain ⟨h1, h2⟩ := heq
      subst h1
      subst h2
      obtain ⟨hp, hr⟩ := ih hq
      constructor
      · intro x hx
        rcases List.mem_cons.1 hx with hx1 | hx2
        · exact hx1 ▸ List.mem_cons_self c cs
        · exact List.mem_cons_of_mem c (hp x hx2)
      · intro x hx
        exact List.mem_cons_of_mem c (hr x hx)

/-- Characters surviving backtick removal come from the input. -/
theorem removeTicks_mem : ∀ (fuel : Nat) {l : List Char} {x : Char},
    x ∈ removeTicks fuel l → x ∈ l := by
  intro fuel
  induction fuel with
  | zero => intro l x hx; exact hx
  | succ fuel ih =>
    intro l x hx
    match l with
    | [] => simpa [removeTicks] using hx
    | c :: cs =>
      rw [removeTicks] at hx
      by_cases hst : startsTicks (c :: cs) = true
      · rw [if_pos hst] at hx
        exact List.mem_of_mem_drop (ih hx)
      · rw [if_neg hst] at hx
        rcases List.mem_cons.1 hx with hx1 | hx2
        · exact hx1 ▸ List.mem_cons_self c cs
        · exact List.mem_cons_of_mem c (ih hx2)

/-- Characters surviving the generic fence strip come from the input. -/
theorem stripFencesGo_mem : ∀ (fuel : Nat) (b : Bool) {s : List Char} {x : Char},
    x ∈ stripFencesGo fuel b s → x ∈ s := by
  intro fuel
  induction fuel with
  | zero => intro b s x hx; exact hx
  | succ fuel ih =>
    intro b s x hx
    match s with
    | [] => simpa [stripFencesGo] using hx
    | c :: cs =>
      rw [stripFencesGo] at hx
      by_cases hcond : (b && startsTicks (c :: cs)) = true
      · rw [if_pos hcond] at hx
        have hst : startsTicks (c :: cs) = true := by
          simp only [Bool.and_eq_true] at hcond
          exact hcond.2
        have hcbt : c = bt := by
          obtain ⟨r, hr⟩ := startsTicks_shape hst
          injection hr
        cases hfc : findClose ((c :: cs).drop 3) with
        | some pr =>
          rw [hfc] at hx
          obtain ⟨pre2, after2⟩ := pr
          rcases List.mem_append.1 hx with hl | hr2
          · have hmem := removeTicks_mem _ hl
            rcases List.mem_cons.1 hmem with h1 | hmem2
            · rw [h1, hcbt]
              exact List.mem_cons_self _ _
            rcases List.mem_cons.1 hmem2 with h1 | hmem3
            · rw [h1, hcbt]
              exact List.mem_cons_self _ _
            rcases List.mem_cons.1 hmem3 with h1 | hmem4
            · rw [h1, hcbt]
              exact List.mem_cons_self _ _
            rcases List.mem_append.1 hmem4 with h1 | h2
            · exact List.mem_of_mem_drop ((findClose_mem hfc).1 x h1)
            · have : x = bt := by simpa using h2
              rw [this, hcbt]
              exact List.mem_cons_self _ _
          · exact List.mem_of_mem_drop ((findClose_mem hfc).2 x (ih false hr2))
        | none =>
          rw [hfc] at hx
          rcases List.mem_cons.1 hx with h1 | h2
          · exact h1 ▸ List.mem_cons_self c cs
          · exact List.mem_cons_of_mem c (ih (isLineTerm c) h2)
      · rw [if_neg hcond] at hx
        rcases List.mem_cons.1 hx with h1 | h2
        · exact h1 ▸ List.mem_cons_self c cs
        · exact List.mem_cons_of_mem c (ih (isLineTerm c) h2)

/-- Characters surviving the whole preprocessing of lines 112-115 come from
the input string. -/
theorem preprocessed_mem {s : List Char} {x : Char} (hx : x ∈ preprocessed s) : x ∈ s := by
  rw [preprocessed] at hx
  cases hfc : fenceJsonCapture s with
  | some cap =>
    rw [hfc] at hx
    exact fenceJsonCapture_mem hfc x (stripFencesGo_mem _ _ hx)
  | none =>
    rw [hfc] at hx
    exact stripFencesGo_mem _ _ hx

/-- `indexOf` misses exactly the absent characters. -/
theorem idxOfGo_eq_none {c : Char} : ∀ {s : List Char} (i : Nat), c ∉ s → idxOfGo c s i = none := by
  intro s
  induction s with
  | nil => intro i h; rfl
  | cons x xs ih =>
    intro i h
    simp only [List.mem_cons, not_or] at h
    rw [idxOfGo, if_neg (fun he => h.1 he.symm)]
    exact ih (i + 1) h.2

/-- A character absent from the string has no `indexOf` position. -/
theorem idxOf_eq_none {c : Char} {s : List Char} (h : c ∉ s) : idxOf c s = none :=
  idxOfGo_eq_none 0 h

/-- A non-empty input with no brace and no bracket whose preprocessed form
the direct parse rejects reaches the `indexOf` checks of lines 119-121 and
throws the no-JSON error. -/
theorem safeJSON_no_json_found (s : List Char) (hne : s ≠ [])
    (hbrace : ('\x7b' : Char) ∉ s) (hbrack : ('[' : Char) ∉ s)
    (hp : jsonParse (preprocessed s) = none) :
    safeJSON s = .error .noJsonFound := by
  have h1 : idxOf '\x7b' (preprocessed s) = none :=
    idxOf_eq_none (fun hx => hbrace (preprocessed_mem hx))
  have h2 : idxOf '[' (preprocessed s) = none :=
    idxOf_eq_none (fun hx => hbrack (preprocessed_mem hx))
  simp only [safeJSON, if_neg hne, hp, h1, h2]

/-- Counterexample to C5 as stated: the input `42` contains neither a brace
nor a bracket, yet `safeJSON` does not fail with the no-JSON error — the
direct `JSON.parse` of line 117 accepts the bare scalar and returns 42. -/
theorem safeJSON_scalar_counterexample :
    safeJSON ("42".toList) = .ok (JVal.jnum 42)
    ∧ safeJSON ("42".toList) ≠ .error .noJsonFound := by
  have hok : safeJSON ("42".toList) = .ok (JVal.jnum 42) := by rfl
  exact ⟨hok, fun h => by cases hok.symm.trans h⟩

/-- C5 (amended): the two positive reference cases hold as stated — the
fenced input yields the object with field `text`, the noise-wrapped input
yields the object with field `a` — and an input containing neither a brace
nor a bracket fails with the no-JSON error provided it is non-empty and its
fence-stripped form is not itself directly parseable (bare JSON scalars
such as `42` parse successfully instead). -/
theorem safeJSON_reference_cases :
    safeJSON ("Here: ```json\n\x7b\"text\":\"hi\"\x7d\n```".toList)
      = .ok (JVal.jobj [("text".toList, JVal.jstr ("hi".toList))])
    ∧ safeJSON ("noise\x7b\"a\":1\x7dtrailing".toList)
      = .ok (JVal.jobj [("a".toList, JVal.jnum 1)])
    ∧ ∀ s : List Char, s ≠ [] → ('\x7b' : Char) ∉ s → ('[' : Char) ∉ s →
        jsonParse (preprocessed s) = none → safeJSON s = .error .noJsonFound :=
  ⟨by rfl, by rfl, safeJSON_no_json_found⟩

/-- Witness for C5 (amended): the brace-free, bracket-free input `xyz` is
rejected with the no-JSON error, alongside the two closed reference cases. -/
theorem safeJSON_reference_cases_witness :
    safeJSON ("Here: ```json\n\x7b\"text\":\"hi\"\x7d\n```".toList)
      = .ok (JVal.jobj [("text".toList, JVal.jstr ("hi".toList))])
    ∧ safeJSON ("xyz".toList) = .error SafeErr.noJsonFound :=
  ⟨safeJSON_reference_cases.1,
    safeJSON_reference_cases.2.2 ("xyz".toList) (by decide) (by decide) (by decide) (by rfl)⟩

/-- The two possible outcomes of one sequential `throttleRPM` call: either
the window is (re)opened at a strictly later `_winStart` and the call is
admitted as that new window's first request, or the call is admitted inside
the current window, whose count was still below the limit. -/
theorem throttleRPM_cases (limit : Nat) (st : RPMState) (t : Int)
    (hlim : 1 ≤ limit) (hwt : st.winStart ≤ t) :
    (∃ wS : Int, throttleRPM limit st t = (⟨wS, 1⟩, wS) ∧ st.winStart < wS)
    ∨ (throttleRPM limit st t = (⟨st.winStart, st.reqInWindow + 1⟩, t)
        ∧ st.reqInWindow < limit ∧ st.winStart ≤ t ∧ t < st.winStart + 60000) := by
  unfold throttleRPM
  by_cases hr : (60000 : Int) ≤ t - st.winStart
  · rw [if_pos hr]
    dsimp only
    rw [if_neg (by omega : ¬ limit ≤ 0)]
    left
    exact ⟨t, rfl, by omega⟩
  · rw [if_neg hr]
    dsimp only
    by_cases hs : limit ≤ st.reqInWindow
    · rw [if_pos hs]
      left
      refine ⟨st.winStart + 60050, ?_, by omega⟩
      dsimp only
      have harith : t + (60000 - (t - st.winStart) + 50) = st.winStart + 60050 := by ring
      rw [harith]
    · rw [if_neg hs]
      right
      exact ⟨rfl, by omega, hwt, by omega⟩

/-- Per fixed window: along any sequential call sequence, the number of
admissions tagged with a given `_winStart` value `w` never exceeds the
limit budget remaining for the current window (`limit - count` for the
window now open, `limit` for windows not yet opened, 0 for `w` in the
past). -/
theorem throttleTrace_per_window {limit : Nat} (hlim : 1 ≤ limit) :
    ∀ (ts : List Int) (st : RPMState), st.reqInWindow ≤ limit →
      sequentialCalls limit st ts = true →
      ∀ w : Int,
        ((throttleTrace limit st ts).filter (fun p => decide (p.2 = w))).length ≤
          (if w = st.winStart then limit - st.reqInWindow
           else if st.winStart < w then limit else 0) := by
  intro ts
  induction ts with
  | nil =>
    intro st hcnt hseq w
    simp only [throttleTrace, List.filter_nil, List.length_nil]
    exact Nat.zero_le _
  | cons t ts2 ih =>
    intro st hcnt hseq w
    rw [sequentialCalls, Bool.and_eq_true] at hseq
    obtain ⟨hwtb, hseq2⟩ := hseq
    rw [decide_eq_true_eq] at hwtb
    rw [throttleTrace]
    rcases throttleRPM_cases limit st t hlim hwtb with ⟨wS, heq, hlt⟩ | ⟨heq, hclt, hge, hlt60⟩
    · rw [heq] at hseq2 ⊢
      dsimp only
      rw [List.filter_cons]
      have htail := ih ⟨wS, 1⟩ hlim hseq2 w
      dsimp only at htail
      by_cases h1 : wS = w
      · rw [if_pos (by simp [h1])]
        rw [if_pos h1.symm] at htail
        rw [List.length_cons]
        have hgt : st.winStart < w := h1 ▸ hlt
        rw [if_neg (by omega), if_pos hgt]
        omega
      · rw [if_neg (by simp [h1])]
        rw [if_neg (fun hh => h1 hh.symm)] at htail
        by_cases h2 : wS < w
        · rw [if_pos h2] at htail
          have hgt : st.winStart < w := by omega
          rw [if_neg (by omega), if_pos hgt]
          exact htail
        · rw [if_neg h2] at htail
          split_ifs <;> omega
    · rw [heq] at hseq2 ⊢
      dsimp only
      rw [List.filter_cons]
      have htail := ih ⟨st.winStart, st.reqInWindow + 1⟩ (show st.reqInWindow + 1 ≤ limit by omega) hseq2 w
      dsimp only at htail
      by_cases h1 : st.winStart = w
      · rw [if_pos (by simp [h1])]
        rw [if_pos h1.symm] at htail
        rw [List.length_cons]
        rw [if_pos h1.symm]
        omega
      · rw [if_neg (by simp [h1])]
        rw [if_neg (fun hh => h1 hh.symm)] at htail
        rw [if_neg (fun hh => h1 hh.symm)]
        exact htail

/-- Every admission happens inside the fixed window tagged on it:
`winStart <= admissionTime < winStart + 60000`. -/
theorem throttleTrace_bounds {limit : Nat} (hlim : 1 ≤ limit) :
    ∀ (ts : List Int) (st : RPMState),
      sequentialCalls limit st ts = true →
      ∀ p ∈ throttleTrace limit st ts, p.2 ≤ p.1 ∧ p.1 < p.2 + 60000 := by
  intro ts
  induction ts with
  | nil =>
    intro st hseq p hp
    simp [throttleTrace] at hp
  | cons t ts2 ih =>
    intro st hseq p hp
    rw [sequentialCalls, Bool.and_eq_true] at hseq
    obtain ⟨hwtb, hseq2⟩ := hseq
    rw [decide_eq_true_eq] at hwtb
    rw [throttleTrace] at hp
    rcases throttleRPM_cases limit st t hlim hwtb with ⟨wS, heq, hlt⟩ | ⟨heq, hclt, hge, hlt60⟩
    · rw [heq] at hseq2 hp
      dsimp only at hp
      rcases List.mem_cons.1 hp with h1 | h2
      · subst h1
        exact ⟨le_refl _, by omega⟩
      · exact ih ⟨wS, 1⟩ hseq2 p h2
    · rw [heq] at hseq2 hp
      dsimp only at hp
      rcases List.mem_cons.1 hp with h1 | h2
      · subst h1
        exact ⟨hge, by omega⟩
      · exact ih ⟨st.winStart, st.reqInWindow + 1⟩ hseq2 p h2

/-- Counterexample to C2 as stated: with `OPENAI_RPM = 2` and sequential
calls at times 100000, 159999, 160000 and 160001 ms, every call is admitted
immediately (the fixed window resets at 160000), so the sliding 60-second
window starting at 159999 observes 3 > 2 admissions. -/
theorem throttleRPM_sliding_window_counterexample :
    throttleRun 2 ⟨0, 0⟩ [100000, 159999, 160000, 160001] = [100000, 159999, 160000, 160001]
    ∧ 2 < admittedInWindow 159999 (throttleRun 2 ⟨0, 0⟩ [100000, 159999, 160000, 160001]) := by
  constructor
  · rfl
  · decide

/-- C2 (amended): `throttleRPM` bounds admissions per fixed 60-second
window, not per sliding window: along any sequence of sequential calls
(each arriving no earlier than the gate's current `_winStart`, as in any
real execution) with `limit >= 1`, at most `limit` admissions carry any
given `_winStart` tag, and every admission falls within the fixed window
`[_winStart, _winStart + 60000)` tagged on it.  A sliding 60-second window
can straddle two fixed windows and observe up to `2 * limit` admissions. -/
theorem throttleRPM_fixed_window {limit : Nat} {st : RPMState} {ts : List Int}
    (hlim : 1 ≤ limit) (hcnt : st.reqInWindow ≤ limit)
    (hseq : sequentialCalls limit st ts = true) :
    (∀ w : Int, ((throttleTrace limit st ts).filter (fun p => decide (p.2 = w))).length ≤ limit)
    ∧ ∀ p ∈ throttleTrace limit st ts, p.2 ≤ p.1 ∧ p.1 < p.2 + 60000 := by
  constructor
  · intro w
    have h := throttleTrace_per_window hlim ts st hcnt hseq w
    split_ifs at h <;> omega
  · exact throttleTrace_bounds hlim ts st hseq

/-- Witness for C2 (amended): on the concrete four-call schedule with limit
2, the fixed window opened at 100000 hosts at most 2 admissions. -/
theorem throttleRPM_fixed_window_witness :
    ((throttleTrace 2 ⟨0, 0⟩ [100000, 159999, 160000, 160001]).filter
        (fun p => decide (p.2 = 100000))).length ≤ 2 :=
  (throttleRPM_fixed_window (by decide) (by decide) (by decide)).1 100000

/-- Counterexample to C8 as stated: five generated questions in which
exactly two share a question string up to case and surrounding whitespace
and exactly one (distinct from the pair) has only 3 options.  Sanitization
keeps the first of the pair and both remaining valid questions: 3 survive,
not 2. -/
theorem quiz_sanitize_counterexample :
    (sanitizeQuiz 15
      [⟨"Alpha?".toList, some ["a".toList, "b".toList, "c".toList, "d".toList], 0, none⟩,
       ⟨" ALPHA? ".toList, some ["a".toList, "b".toList, "c".toList, "d".toList], 1, none⟩,
       ⟨"Beta?".toList, some ["a".toList, "b".toList, "c".toList], 2, none⟩,
       ⟨"Gamma?".toList, some ["a".toList, "b".toList, "c".toList, "d".toList], 3, none⟩,
       ⟨"Delta?".toList, some ["a".toList, "b".toList, "c".toList, "d".toList], 7, none⟩]).length
      = 3 := by
  rfl

/-- C8 (amended): for a generated list of 5 questions with non-empty,
otherwise pairwise distinct keys in which the second question duplicates
the first's key (case/whitespace-insensitively), the third has only 3
options, the others have at least 4, and the requested count is at least 3,
sanitization keeps exactly 3 questions — the first of the duplicate pair
and the two later valid ones — each with exactly 4 options and a correct
index clamped into `[0, 3]`. -/
theorem quiz_sanitize_amended
    (n : Nat) (hn : 3 ≤ n)
    (q0 q1 q2 q3 q4 : RawQuestion)
    (os0 os2 os3 os4 : List (List Char))
    (h0o : q0.options = some os0) (h0l : 4 ≤ os0.length)
    (h2o : q2.options = some os2) (h2l : os2.length = 3)
    (h3o : q3.options = some os3) (h3l : 4 ≤ os3.length)
    (h4o : q4.options = some os4) (h4l : 4 ≤ os4.length)
    (hk1 : qKey q1 = qKey q0)
    (hk0 : qKey q0 ≠ []) (hk2 : qKey q2 ≠ []) (hk3 : qKey q3 ≠ []) (hk4 : qKey q4 ≠ [])
    (hd02 : qKey q2 ≠ qKey q0) (hd03 : qKey q3 ≠ qKey q0) (hd04 : qKey q4 ≠ qKey q0)
    (hd23 : qKey q3 ≠ qKey q2) (hd24 : qKey q4 ≠ qKey q2) (hd34 : qKey q4 ≠ qKey q3) :
    sanitizeQuiz n [q0, q1, q2, q3, q4] =
      [⟨q0.question, os0.take 4, max 0 (min q0.correct 3), q0.explanation.getD []⟩,
       ⟨q3.question, os3.take 4, max 0 (min q3.correct 3), q3.explanation.getD []⟩,
       ⟨q4.question, os4.take 4, max 0 (min q4.correct 3), q4.explanation.getD []⟩]
    ∧ (sanitizeQuiz n [q0, q1, q2, q3, q4]).length = 3
    ∧ ∀ sq ∈ sanitizeQuiz n [q0, q1, q2, q3, q4],
        sq.options.length = 4 ∧ 0 ≤ sq.correct ∧ sq.correct ≤ 3 := by
  have hn1 : ¬ n ≤ 1 := by omega
  have hn2 : ¬ n ≤ 2 := by omega
  have hmin0 : min 4 os0.length = 4 := min_eq_left h0l
  have hmin3 : min 4 os3.length = 4 := min_eq_left h3l
  have hmin4 : min 4 os4.length = 4 := min_eq_left h4l
  have hmain : sanitizeQuiz n [q0, q1, q2, q3, q4] =
      [⟨q0.question, os0.take 4, max 0 (min q0.correct 3), q0.explanation.getD []⟩,
       ⟨q3.question, os3.take 4, max 0 (min q3.correct 3), q3.explanation.getD []⟩,
       ⟨q4.question, os4.take 4, max 0 (min q4.correct 3), q4.explanation.getD []⟩] := by
    simp [sanitizeQuiz, sanitizeGo, h0o, h2o, h3o, h4o, hmin0, hmin3, hmin4, h2l,
      hk0, hk1, hk2, hk3, hk4, hd02, hd03, hd04, hd23, hd24, hd34, hn1, hn2,
      List.length_take]
  refine ⟨hmain, by rw [hmain]; rfl, ?_⟩
  intro sq hsq
  rw [hmain] at hsq
  have hopt : ∀ (q : RawQuestion) (os : List (List Char)), 4 ≤ os.length →
      (SanQuestion.mk q.question (os.take 4) (max 0 (min q.correct 3))
        (q.explanation.getD [])).options.length = 4 := by
    intro q os hos
    simp [List.length_take, min_eq_left hos]
  rcases List.mem_cons.1 hsq with h1 | hsq2
  · subst h1
    exact ⟨hopt q0 os0 h0l, by dsimp only; omega, by dsimp only; omega⟩
  rcases List.mem_cons.1 hsq2 with h1 | hsq3
  · subst h1
    exact ⟨hopt q3 os3 h3l, by dsimp only; omega, by dsimp only; omega⟩
  rcases List.mem_cons.1 hsq3 with h1 | hsq4
  · subst h1
    exact ⟨hopt q4 os4 h4l, by dsimp only; omega, by dsimp only; omega⟩
  · simp at hsq4

/-- Witness for C8 (amended): the concrete five-question scenario of the
counterexample satisfies all hypotheses and yields the 3 surviving
questions. -/
theorem quiz_sanitize_amended_witness :
    sanitizeQuiz 15
      [⟨"Alpha?".toList, some ["a".toList, "b".toList, "c".toList, "d".toList], 0, none⟩,
       ⟨" ALPHA? ".toList, some ["a".toList, "b".toList, "c".toList, "d".toList], 1, none⟩,
       ⟨"Beta?".toList, some ["a".toList, "b".toList, "c".toList], 2, none⟩,
       ⟨"Gamma?".toList, some ["a".toList, "b".toList, "c".toList, "d".toList], 3, none⟩,
       ⟨"Delta?".toList, some ["a".toList, "b".toList, "c".toList, "d".toList], 7, none⟩] =
      [⟨"Alpha?".toList, ["a".toList, "b".toList, "c".toList, "d".toList], 0, []⟩,
       ⟨"Gamma?".toList, ["a".toList, "b".toList, "c".toList, "d".toList], 3, []⟩,
       ⟨"Delta?".toList, ["a".toList, "b".toList, "c".toList, "d".toList], 3, []⟩] := by
  have h := quiz_sanitize_amended 15 (by norm_num)
    ⟨"Alpha?".toList, some ["a".toList, "b".toList, "c".toList, "d".toList], 0, none⟩
    ⟨" ALPHA? ".toList, some ["a".toList, "b".toList, "c".toList, "d".toList], 1, none⟩
    ⟨"Beta?".toList, some ["a".toList, "b".toList, "c".toList], 2, none⟩
    ⟨"Gamma?".toList, some ["a".toList, "b".toList, "c".toList, "d".toList], 3, none⟩
    ⟨"Delta?".toList, some ["a".toList, "b".toList, "c".toList, "d".toList], 7, none⟩
    ["a".toList, "b".toList, "c".toList, "d".toList]
    ["a".toList, "b".toList, "c".toList]
    ["a".toList, "b".toList, "c".toList, "d".toList]
    ["a".toList, "b".toList, "c".toList, "d".toList]
    rfl (by norm_num) rfl (by rfl) rfl (by norm_num) rfl (by norm_num)
    (by rfl) (by decide) (by decide) (by decide) (by decide)
    (by decide) (by decide) (by decide) (by decide) (by decide) (by decide)
  exact h.1
